import Mathlib

/-!
Verification of the content-readability and keyword-analysis core of the
seo-audit tool.  Text is modelled as `List Char`; JavaScript string and
regular-expression primitives used by the source (`toLowerCase`, `split`,
`replace`, `match`, `trim`, `includes`) are given executable models below,
restricted to the ASCII fragment the analyzers operate on.
-/

namespace SeoAudit

/-- ASCII whitespace characters recognised by the JavaScript `\s` class
(space, tab, line feed, carriage return, vertical tab, form feed). -/
def isWS (c : Char) : Bool :=
  c = ' ' || c = '\t' || c = '\n' || c = '\r' || c = Char.ofNat 11 || c = Char.ofNat 12

/-- The ASCII upper-to-lower case table used to model `String.prototype.toLowerCase`. -/
def lowerPairs : List (Char × Char) :=
  [('A','a'), ('B','b'), ('C','c'), ('D','d'), ('E','e'), ('F','f'), ('G','g'),
   ('H','h'), ('I','i'), ('J','j'), ('K','k'), ('L','l'), ('M','m'), ('N','n'),
   ('O','o'), ('P','p'), ('Q','q'), ('R','r'), ('S','s'), ('T','t'), ('U','u'),
   ('V','v'), ('W','w'), ('X','x'), ('Y','y'), ('Z','z')]

/-- Association lookup over a pair list. -/
def lowerOf : List (Char × Char) → Char → Option Char
  | [], _ => none
  | (u, l) :: rest, c => if c = u then some l else lowerOf rest c

/-- ASCII model of JavaScript `toLowerCase` applied to one character. -/
def jsToLower (c : Char) : Char := (lowerOf lowerPairs c).getD c

/-- The fixed punctuation set removed by `normalizeText`
(the regex `[.,\/#!$%^&*;:\x7b\x7d=\-_\x60~()]` of the source). -/
def punctChars : List Char :=
  ['.', ',', '/', '#', '!', '$', '%', '^', '&', '*', ';', ':',
   Char.ofNat 123, Char.ofNat 125, '=', '-', '_', Char.ofNat 96, '~', '(', ')']

/-- Membership in the removed punctuation set. -/
def isPunct (c : Char) : Bool := punctChars.contains c

/-- Sentence-terminating characters of the `[.!?]+` splitter. -/
def isSentencePunct (c : Char) : Bool := c = '.' || c = '!' || c = '?'

/-- JavaScript regex `\w` word characters (used by the `\b` word boundary). -/
def isWordChar (c : Char) : Bool :=
  ('a' ≤ c && c ≤ 'z') || ('A' ≤ c && c ≤ 'Z') || ('0' ≤ c && c ≤ '9') || c = '_'

/-- Splits a character list at every occurrence of `sep`, keeping empty pieces,
as JavaScript `String.prototype.split` with a single-character separator does
(in particular the empty string splits to `[[]]`). -/
def splitOnChar (sep : Char) : List Char → List (List Char)
  | [] => [[]]
  | c :: cs =>
    match splitOnChar sep cs with
    | [] => [[]]
    | t :: ts => if c = sep then [] :: t :: ts else (c :: t) :: ts

/-- Replaces every maximal run of characters satisfying `p` by the single
character `r`: the model of `replace(/p+/g, r)`. -/
def collapseRunsWith (p : Char → Bool) (r : Char) : List Char → List Char
  | [] => []
  | c :: cs =>
    if p c then
      match cs with
      | [] => [r]
      | d :: ds =>
        if p d then collapseRunsWith p r (d :: ds)
        else r :: collapseRunsWith p r (d :: ds)
    else c :: collapseRunsWith p r cs

/-- JavaScript `String.prototype.trim`: removes whitespace from both ends. -/
def trimJS (l : List Char) : List Char :=
  ((l.dropWhile isWS).reverse.dropWhile isWS).reverse

/-- Embedding of `normalizeText` (keywordAnalyzer.ts): lowercase, remove the
fixed punctuation set, collapse whitespace runs to one space, trim. -/
def normalizeText (l : List Char) : List Char :=
  trimJS (collapseRunsWith isWS ' ' ((l.map jsToLower).filter (fun c => !(isPunct c))))

/-- JavaScript `split(/\s+/)`: splitting on maximal whitespace runs (with the
empty pieces a leading or trailing run produces). -/
def splitWS (l : List Char) : List (List Char) :=
  splitOnChar ' ' (collapseRunsWith isWS ' ' l)

/-- The non-empty whitespace-separated tokens of a text
(`text.split(/\s+/).filter(w => w.length > 0)`). -/
def wordsOf (l : List Char) : List (List Char) :=
  (splitWS l).filter (fun w => w ≠ [])

/-- The non-blank sentence segments of a text
(`text.split(/[.!?]+/).filter(s => s.trim().length > 0)`). -/
def sentencesOf (l : List Char) : List (List Char) :=
  (splitOnChar '.' (collapseRunsWith isSentencePunct '.' l)).filter (fun s => trimJS s ≠ [])

/-- JavaScript `String.prototype.includes`: substring containment. -/
def containsSub (needle hay : List Char) : Bool :=
  (List.range (hay.length + 1)).any (fun i => needle.isPrefixOf (hay.drop i))

/-! ## Syllable estimator (readabilityAnalyzer source file) -/

/-- The vowel-or-y class `[aeiouy]` of the syllable heuristic. -/
def vowelY (c : Char) : Bool :=
  c = 'a' || c = 'e' || c = 'i' || c = 'o' || c = 'u' || c = 'y'

/-- The character class `[laeiouy]` used (negated) by the silent-suffix regex. -/
def lVowelY (c : Char) : Bool := c = 'l' || vowelY c

/-- The `word.toLowerCase().replace(/[^a-z]/g, '')` step. -/
def stripNonAlpha (l : List Char) : List Char :=
  (l.map jsToLower).filter (fun c => 'a' ≤ c && c ≤ 'z')

/-- The `replace(/(?:[^laeiouy]es|ed|[^laeiouy]e)$/, '')` step.  The leftmost
match ending at the string end is a three-character `Xes` match (X outside
`[laeiouy]`) when present, otherwise a two-character `ed` match, otherwise a
two-character `Xe` match. -/
def dropSuffixEsEdE (w : List Char) : List Char :=
  match w.reverse with
  | 's' :: 'e' :: c :: rest => if lVowelY c then w else rest.reverse
  | 'd' :: 'e' :: rest => rest.reverse
  | 'e' :: c :: rest => if lVowelY c then w else rest.reverse
  | _ => w

/-- The `replace(/^y/, '')` step. -/
def dropLeadY : List Char → List Char
  | 'y' :: rest => rest
  | w => w

/-- Number of matches of the global regex `[aeiouy]{1,2}`: the scanner greedily
consumes one or two vowel-or-y characters per match, so a maximal run of
`n` vowels produces `⌈n/2⌉` matches. -/
def countVowelPairs : List Char → Nat
  | [] => 0
  | c :: cs =>
    if vowelY c then
      match cs with
      | [] => 1
      | d :: ds => if vowelY d then 1 + countVowelPairs ds else 1 + countVowelPairs (d :: ds)
    else countVowelPairs cs

/-- Embedding of `countWordSyllables`. -/
def countWordSyllables (word : List Char) : Nat :=
  let w := stripNonAlpha word
  if w.length ≤ 3 then 1
  else
    let w2 := dropLeadY (dropSuffixEsEdE w)
    let n := countVowelPairs w2
    if n = 0 then 1 else n

/-- Embedding of `countSyllables`: lowercase, split on whitespace (keeping the
empty pieces JavaScript `split(/\s+/)` produces), sum per-word estimates. -/
def countSyllables (text : List Char) : Nat :=
  ((splitWS (text.map jsToLower)).map countWordSyllables).sum

/-! ## Readability scorer

JavaScript numbers are modelled by `Option ℚ`: `some q` is the finite value
`q`, `none` is any non-finite value (`NaN` or `±Infinity`).  Division by zero
is the only source of non-finite values in this code, and every arithmetic
operation the scorer applies to a non-finite operand (sums, differences, and
products with non-zero constants) again yields a non-finite value. -/

/-- Lift a binary rational operation to the finite-or-not number model. -/
def jBin (f : ℚ → ℚ → ℚ) : Option ℚ → Option ℚ → Option ℚ
  | some a, some b => some (f a b)
  | _, _ => none

/-- Addition on the number model. -/
def jadd : Option ℚ → Option ℚ → Option ℚ := jBin (fun a b => a + b)

/-- Subtraction on the number model. -/
def jsub : Option ℚ → Option ℚ → Option ℚ := jBin (fun a b => a - b)

/-- Multiplication on the number model. -/
def jmul : Option ℚ → Option ℚ → Option ℚ := jBin (fun a b => a * b)

/-- Division of finite values: zero denominator yields a non-finite result. -/
def jdiv (a b : ℚ) : Option ℚ := if b = 0 then none else some (a / b)

/-- Embedding of the `ReadabilityMetrics` record. -/
structure ReadabilityMetrics where
  fleschEase : Option ℚ
  fleschKincaid : Option ℚ
  gunningFog : Option ℚ
  colemanLiau : Option ℚ
  averageWordsPerSentence : Option ℚ
  averageSyllablesPerWord : Option ℚ
  totalWords : Nat
  totalSentences : Nat
  complexWords : Nat
  lix : Option ℚ
  longWords : Nat
deriving DecidableEq

/-- Embedding of `calculateLIX`:
`(words/sentences) + longWords*100/words` with the over-six-character
long-word count. -/
def calculateLIX (text : List Char) : Option ℚ :=
  let words := wordsOf text
  let sentences := sentencesOf text
  let longWords := (words.filter (fun w => w.length > 6)).length
  jadd (jdiv (words.length : ℚ) (sentences.length : ℚ))
       (jdiv ((longWords * 100 : Nat) : ℚ) (words.length : ℚ))

/-- Embedding of `calculateMetrics`. -/
def calculateMetrics (text : List Char) : ReadabilityMetrics :=
  let words := wordsOf text
  let sentences := sentencesOf text
  let totalSyllables := countSyllables text
  let complexWords := (words.filter (fun w => countWordSyllables w > 2)).length
  let totalWords := words.length
  let totalSentences := sentences.length
  let averageWordsPerSentence := jdiv (totalWords : ℚ) (totalSentences : ℚ)
  let averageSyllablesPerWord := jdiv (totalSyllables : ℚ) (totalWords : ℚ)
  let chars := (text.filter (fun c => !(isWS c))).length
  let averageCharsPerWord := jdiv (chars : ℚ) (totalWords : ℚ)
  { fleschEase := jsub (jsub (some 206.835) (jmul (some 1.015) averageWordsPerSentence))
      (jmul (some 84.6) averageSyllablesPerWord)
    fleschKincaid := jsub (jadd (jmul (some 0.39) averageWordsPerSentence)
      (jmul (some 11.8) averageSyllablesPerWord)) (some 15.59)
    gunningFog := jmul (some 0.4) (jadd averageWordsPerSentence
      (jmul (some 100) (jdiv (complexWords : ℚ) (totalWords : ℚ))))
    colemanLiau := jsub (jsub (jmul (some 0.0588) (jmul averageCharsPerWord (some 100)))
      (jmul (some 0.296) (jmul (jdiv (totalSentences : ℚ) (totalWords : ℚ)) (some 100))))
      (some 15.8)
    averageWordsPerSentence := averageWordsPerSentence
    averageSyllablesPerWord := averageSyllablesPerWord
    totalWords := totalWords
    totalSentences := totalSentences
    complexWords := complexWords
    lix := calculateLIX text
    longWords := (words.filter (fun w => w.length > 15)).length }

/-! ## Keyword occurrence finder (keywordAnalyzer.ts)

The single-word branch of `findKeywordOccurrences` builds
`new RegExp("\\b" + keyword + "\\b", "gi")` from the unescaped normalized
keyword and matches it against the raw text.  The `RegExp` constructor is a
platform primitive; it is modelled by the ECMAScript quantifier well-formedness
rule: a quantifier (`+`, `*`, `?`) must follow a quantifiable atom, a single
`?` may follow a quantifier as a laziness marker, and otherwise construction
throws a `SyntaxError` ("nothing to repeat").  Word-boundary matching with the
`g` and `i` flags is modelled by a left-to-right scanner. -/

/-- Parser state for the quantifier well-formedness check: nothing to quantify
yet, after a quantifiable atom, after a quantifier, or after a lazy marker. -/
inductive QState where
  | noAtom : QState
  | atom : QState
  | quant : QState
  | lazy : QState
deriving DecidableEq

/-- One step of the quantifier well-formedness check; `none` is a syntax error. -/
def qstep (s : QState) (c : Char) : Option QState :=
  if c = '+' || c = '*' then (if s = QState.atom then some QState.quant else none)
  else if c = '?' then
    (if s = QState.atom then some QState.quant
     else if s = QState.quant then some QState.lazy else none)
  else if c = '|' then some QState.noAtom
  else some QState.atom

/-- Whether the pattern characters pass the quantifier well-formedness check
starting from state `s` (the pattern begins after the assertion `\b`, which is
not quantifiable, hence the initial state `QState.noAtom`). -/
def quantOk : QState → List Char → Bool
  | _, [] => true
  | s, c :: cs =>
    match qstep s c with
    | none => false
    | some s' => quantOk s' cs

/-- Case-insensitive list-prefix test (the `i` flag canonicalises case). -/
def ciPrefixOf : List Char → List Char → Bool
  | [], _ => true
  | _ :: _, [] => false
  | k :: ks, t :: ts => jsToLower k = jsToLower t && ciPrefixOf ks ts

/-- Whether an optional character is a `\w` word character (`none` stands for
the edge of the text, which is not a word character). -/
def optIsWord : Option Char → Bool
  | none => false
  | some c => isWordChar c

/-- The `\b` assertion between two (possibly absent) adjacent characters. -/
def isBoundary (a b : Option Char) : Bool := optIsWord a != optIsWord b

/-- Left-to-right global scanner for `\b…\b` matches: `prev` is the character
just before the current position, `fuel` bounds the recursion (it starts above
the text length and every step consumes at least one character). -/
def scanAux (kw : List Char) : Option Char → List Char → Nat → List (List Char)
  | _, _, 0 => []
  | prev, rest, fuel + 1 =>
    let m := rest.take kw.length
    let after := rest.drop kw.length
    let lastM : Option Char := if kw.length = 0 then prev else m.getLast?
    let hit := ciPrefixOf kw rest && isBoundary prev rest.head? && isBoundary lastM after.head?
    if hit then
      match kw, rest with
      | [], [] => [[]]
      | [], c :: cs => [] :: scanAux kw (some c) cs fuel
      | _ :: _, _ => m :: scanAux kw lastM after fuel
    else
      match rest with
      | [] => []
      | c :: cs => scanAux kw (some c) cs fuel

/-- All matches of `new RegExp("\\b" + kw + "\\b", "gi")` in `text`
(`text.match(regex)`, with `null` represented by the empty list). -/
def jsMatchAll (kw text : List Char) : List (List Char) :=
  scanAux kw none text (text.length + 1)

/-- The error condition of `findKeywordOccurrences`: a single-token normalized
keyword whose characters fail the quantifier well-formedness check makes the
`RegExp` constructor throw. -/
def keywordError (keyword : List Char) : Bool :=
  ((splitOnChar ' ' (normalizeText keyword)).length == 1)
    && !(quantOk QState.noAtom (normalizeText keyword))

/-- Embedding of `findKeywordOccurrences`.  The single-word branch matches the
word-boundary regex against the raw text (throwing for an ill-formed pattern);
the multi-word branch slides a window over the normalized text's space-split
tokens and recovers the original-text span at the same token index. -/
def findKeywordOccurrences (text keyword : List Char) :
    Except String (List (List Char)) :=
  let normalizedText := normalizeText text
  let normalizedKeyword := normalizeText keyword
  let words := splitOnChar ' ' normalizedText
  let keywordWords := splitOnChar ' ' normalizedKeyword
  if keywordWords.length = 1 then
    if quantOk QState.noAtom normalizedKeyword then
      Except.ok (jsMatchAll normalizedKeyword text)
    else
      Except.error "Invalid regular expression: nothing to repeat"
  else
    Except.ok ((List.range (words.length + 1 - keywordWords.length)).filterMap (fun i =>
      let possibleMatch := List.intercalate [' '] ((words.drop i).take keywordWords.length)
      if possibleMatch = normalizedKeyword then
        some (List.intercalate [' '] (((splitWS text).drop i).take keywordWords.length))
      else none))

/-- Embedding of `countKeywordInText`. -/
def countKeywordInText (text keyword : List Char) : Except String Nat :=
  (findKeywordOccurrences text keyword).map List.length

/-- The occurrence list when the keyword is well-formed (and `[]` otherwise);
used to state results about the successful executions of the analyzer. -/
def findOccList (text keyword : List Char) : List (List Char) :=
  match findKeywordOccurrences text keyword with
  | Except.ok l => l
  | Except.error _ => []

/-! ## Keyword placement analyzer -/

/-- The read-only document view the analyzers consume: body text, title text,
meta-description content, URL path, heading texts by level, paragraph texts in
order, and the declared language attribute. -/
structure Document where
  bodyText : List Char
  title : List Char
  metaDescription : List Char
  urlPath : List Char
  h1s : List (List Char)
  h2s : List (List Char)
  h3s : List (List Char)
  paragraphs : List (List Char)
  lang : List Char

/-- Embedding of the `KeywordAnalysis` record (the `inHeadings` object is
flattened into the three per-level fields `h1`, `h2`, `h3`). -/
structure KeywordAnalysis where
  density : ℚ
  count : Nat
  inTitle : Bool
  inFirstParagraph : Bool
  h1 : Nat
  h2 : Nat
  h3 : Nat
  inMetaDescription : Bool
  inUrl : Bool
  occurrences : List (List Char)
deriving DecidableEq

/-- The per-level heading reduce of `analyzeKeyword`: sum of occurrence counts
across the elements of one heading level, propagating a thrown error. -/
def headingCount (texts : List (List Char)) (keyword : List Char) : Except String Nat :=
  texts.foldlM (fun count el => do
    let occ ← findKeywordOccurrences el keyword
    pure (count + occ.length)) 0

/-- Embedding of `analyzeKeyword`.  The first paragraph is the head of the
document's paragraph sequence (`querySelector('p')`), empty when absent. -/
def analyzeKeyword (document : Document) (keyword : List Char) :
    Except String KeywordAnalysis := do
  let bodyText := document.bodyText
  let wordCount := (splitWS (normalizeText bodyText)).length
  let occurrences ← findKeywordOccurrences bodyText keyword
  let keywordCount := occurrences.length
  let keywordWordCount := (splitWS keyword).length
  let density : ℚ := ((keywordCount * keywordWordCount : Nat) : ℚ) / (wordCount : ℚ) * 100
  let titleOcc ← findKeywordOccurrences document.title keyword
  let fpOcc ← findKeywordOccurrences (document.paragraphs.headD []) keyword
  let h1Count ← headingCount document.h1s keyword
  let h2Count ← headingCount document.h2s keyword
  let h3Count ← headingCount document.h3s keyword
  let metaOcc ← findKeywordOccurrences document.metaDescription keyword
  let urlKeyword := collapseRunsWith isWS '-' (normalizeText keyword)
  let inUrl := containsSub urlKeyword (normalizeText document.urlPath)
  pure ⟨density, keywordCount, decide (0 < titleOcc.length), decide (0 < fpOcc.length),
    h1Count, h2Count, h3Count, decide (0 < metaOcc.length), inUrl, occurrences⟩

/-- The per-level heading sum on the error-free path. -/
def headingCountPure (texts : List (List Char)) (keyword : List Char) : Nat :=
  (texts.map (fun t => (findOccList t keyword).length)).sum

/-- The record `analyzeKeyword` produces on the error-free path. -/
def analyzeKeywordPure (document : Document) (keyword : List Char) : KeywordAnalysis :=
  let wordCount := (splitWS (normalizeText document.bodyText)).length
  let occurrences := findOccList document.bodyText keyword
  let keywordWordCount := (splitWS keyword).length
  let density : ℚ := ((occurrences.length * keywordWordCount : Nat) : ℚ) / (wordCount : ℚ) * 100
  let urlKeyword := collapseRunsWith isWS '-' (normalizeText keyword)
  ⟨density, occurrences.length,
    decide (0 < (findOccList document.title keyword).length),
    decide (0 < (findOccList (document.paragraphs.headD []) keyword).length),
    headingCountPure document.h1s keyword,
    headingCountPure document.h2s keyword,
    headingCountPure document.h3s keyword,
    decide (0 < (findOccList document.metaDescription keyword).length),
    containsSub urlKeyword (normalizeText document.urlPath),
    occurrences⟩

/-! ## Keyword relationship analyzer -/

/-- Embedding of `calculateSimilarity`: the Jaccard ratio of the two keywords'
lowercase single-space-split token sets (JavaScript `split(' ')` keeps empty
pieces, so the empty keyword contributes the set containing the empty token). -/
def jsWords (s : List Char) : List (List Char) := splitOnChar ' ' (s.map jsToLower)

/-- The token set of one keyword. -/
def wordSet (s : List Char) : Finset (List Char) := (jsWords s).toFinset

/-- The similarity ratio `|intersection| / |union|`. -/
def calculateSimilarity (str1 str2 : List Char) : ℚ :=
  (((wordSet str1 ∩ wordSet str2).card : ℚ)) / (((wordSet str1 ∪ wordSet str2).card : ℚ))

/-- The ordered `i < j` pairs of the double loop of `analyzeKeywordRelationships`. -/
def allPairs : List (List Char) → List (List Char × List Char)
  | [] => []
  | x :: xs => (xs.map (fun y => (x, y))) ++ allPairs xs

/-- Embedding of `analyzeKeywordRelationships`: the list of pairs whose
similarity exceeds the `0.3` threshold, each with its ratio, in loop order. -/
def analyzeKeywordRelationships (keywords : List (List Char)) :
    List (List Char × List Char × ℚ) :=
  (allPairs keywords).filterMap (fun p =>
    let similarity := calculateSimilarity p.1 p.2
    if similarity > 0.3 then some (p.1, p.2, similarity) else none)

/-! ## Keyword usage entry point -/

/-- The comma-split, trimmed, non-empty keyword list of `analyzeKeywordUsage`. -/
def parseKeywords (keywordsInput : List Char) : List (List Char) :=
  ((splitOnChar ',' keywordsInput).map trimJS).filter (fun k => k ≠ [])

/-- The analyses of `analyzeKeywordUsage`, keyword by keyword in input order;
a thrown analysis aborts the remaining keywords. -/
def runAnalyses (document : Document) :
    List (List Char) → Except String (List (List Char × KeywordAnalysis))
  | [] => Except.ok []
  | k :: ks => do
    let a ← analyzeKeyword document k
    let rest ← runAnalyses document ks
    pure ((k, a) :: rest)

/-- The observable outcome of `analyzeKeywordUsage`: either the
"No keywords provided" signal with no analysis performed, or the parsed
keyword list with its analyses and (for two or more keywords) the
relationship report. -/
inductive UsageResult where
  | noKeywords : UsageResult
  | run (keywords : List (List Char))
        (analyses : Except String (List (List Char × KeywordAnalysis)))
        (relationships : Option (List (List Char × List Char × ℚ))) : UsageResult

/-- Embedding of `analyzeKeywordUsage`. -/
def analyzeKeywordUsage (document : Document) (keywordsInput : List Char) : UsageResult :=
  if trimJS keywordsInput = [] then UsageResult.noKeywords
  else
    let keywords := parseKeywords keywordsInput
    UsageResult.run keywords (runAnalyses document keywords)
      (if keywords.length > 1 then some (analyzeKeywordRelationships keywords) else none)

/-- The keyword list a usage result analyzed (empty for the error signal). -/
def analyzedKeywords : UsageResult → List (List Char)
  | UsageResult.noKeywords => []
  | UsageResult.run keywords _ _ => keywords

/-! ## Content analyzer report -/

/-- The observable shape of `analyzeContent`: either the no-paragraph warning,
or the readability display lines (one optional score per printed line) next to
the full metrics record. -/
inductive ContentReport where
  | noParagraphs : ContentReport
  | report (readabilityLines : List (Option ℚ)) (metrics : ReadabilityMetrics) : ContentReport

/-- The `document.documentElement.lang.toLowerCase().split('-')[0] || 'en'`
derivation. -/
def langOf (lang : List Char) : List Char :=
  let x := (splitOnChar '-' (lang.map jsToLower)).headD []
  if x = [] then 'e' :: 'n' :: [] else x

/-- Embedding of `analyzeContent`'s reporting path: with at least one paragraph
element the readability lines are always emitted — the Swedish branch prints
the LIX score, the default branch prints the four English scores; no finiteness
check guards the printed values. -/
def analyzeContent (document : Document) : ContentReport :=
  if document.paragraphs.length = 0 then ContentReport.noParagraphs
  else
    let language := langOf document.lang
    let fullText := List.intercalate [' ']
      ((document.paragraphs.map trimJS).filter (fun t => t ≠ []))
    let metrics := calculateMetrics fullText
    let lines :=
      if language = 's' :: 'v' :: [] then [metrics.lix]
      else [metrics.fleschEase, metrics.fleschKincaid, metrics.gunningFog, metrics.colemanLiau]
    ContentReport.report lines metrics

/-- Whether a content report displays a non-finite readability score. -/
def printsNonFinite : ContentReport → Bool
  | ContentReport.noParagraphs => false
  | ContentReport.report lines _ => lines.any (fun l => l = none)

/-! ## Claim-side reference definitions

Two definitions below follow the words of the specification rather than the
source, for comparison with the embedded source functions. -/

/-- Claim-side suffix removal for the syllable estimator, following the spec's
words: a trailing "a non-vowel-y character followed by `es` or `ed`, or a
non-vowel-y character followed by `e`" is removed (so the guard class is the
six vowels-or-y, without `l`, and `ed` too needs the guard character). -/
def specDropSuffix (w : List Char) : List Char :=
  match w.reverse with
  | 's' :: 'e' :: c :: rest => if vowelY c then w else rest.reverse
  | 'd' :: 'e' :: c :: rest => if vowelY c then w else rest.reverse
  | 'e' :: c :: rest => if vowelY c then w else rest.reverse
  | _ => w

/-- Number of maximal runs of vowel-or-y characters (`prevVowel` records
whether the previous character belonged to a run). -/
def countRunsAux (prevVowel : Bool) : List Char → Nat
  | [] => 0
  | c :: cs => (if vowelY c && !prevVowel then 1 else 0) + countRunsAux (vowelY c) cs

/-- Number of maximal runs of vowel-or-y characters in a word. -/
def countRuns (l : List Char) : Nat := countRunsAux false l

/-- Claim-side syllable estimator, following the spec's words: strip and
lowercase, short words report 1, remove the claim's trailing suffix, strip a
leading `y`, count each maximal vowel-or-y run as one syllable, floor 1. -/
def specCountWordSyllables (word : List Char) : Nat :=
  let w := stripNonAlpha word
  if w.length ≤ 3 then 1
  else
    let w2 := dropLeadY (specDropSuffix w)
    let n := countRuns w2
    if n = 0 then 1 else n

/-- Claim-side heading total for C4: the texts of all H1/H2/H3 heading
elements are concatenated (joined by a single space) and the occurrence finder
runs once over the concatenation. -/
def specHeadingConcatCount (document : Document) (keyword : List Char) : Except String Nat :=
  countKeywordInText
    (List.intercalate [' '] (document.h1s ++ document.h2s ++ document.h3s)) keyword

/-! ## Concrete inputs used by counterexamples and witnesses -/

/-- A document whose keyword occurrences straddle two heading elements. -/
def headingSplitDoc : Document :=
  ⟨[], [], [], [], ["x a".toList], ["b y".toList], [], [], "en".toList⟩

/-- A small document used to exercise the error-free analyzer path. -/
def sampleDoc : Document :=
  ⟨"solar power is solar".toList, "About solar".toList, [],
   "/solar-power".toList, ["x a".toList], ["b y".toList], [], [],
   "en".toList⟩

/-- An English document whose only paragraph has empty text. -/
def emptyParagraphDoc : Document :=
  ⟨[], [], [], [], [], [], [], [[]], "en".toList⟩

/-- The two concrete keywords of the spec's similarity example. -/
def solarA : List Char := "solar energy".toList

/-- The second keyword of the spec's similarity example. -/
def solarB : List Char := "solar power".toList

/-- A keyword pair whose similarity is exactly the `0.30` threshold. -/
def boundaryA : List Char := "a b c d e f g".toList

/-- The partner of `boundaryA` (three shared tokens, ten in the union). -/
def boundaryB : List Char := "a b c x y z".toList

/-! ## Characterisation of the analyzer's error-free path

Whether `findKeywordOccurrences` throws depends only on the keyword, so an
`analyzeKeyword` call either fails on its first occurrence search or runs the
whole pure computation `analyzeKeywordPure`. -/

/-- A failing keyword makes every occurrence search throw. -/
theorem findOcc_err (text keyword : List Char) (h : keywordError keyword = true) :
    findKeywordOccurrences text keyword =
      Except.error "Invalid regular expression: nothing to repeat" := by
  unfold keywordError at h
  rw [Bool.and_eq_true, beq_iff_eq, Bool.not_eq_true'] at h
  simp [findKeywordOccurrences, h.1, h.2]

/-- A non-failing keyword makes every occurrence search return its list. -/
theorem findOcc_ok (text keyword : List Char) (h : keywordError keyword = false) :
    findKeywordOccurrences text keyword = Except.ok (findOccList text keyword) := by
  cases hE : findKeywordOccurrences text keyword with
  | ok l => simp [findOccList, hE]
  | error e =>
    exfalso
    simp only [findKeywordOccurrences] at hE
    by_cases h1 : (splitOnChar ' ' (normalizeText keyword)).length = 1
    · rw [if_pos h1] at hE
      by_cases h2 : quantOk QState.noAtom (normalizeText keyword) = true
      · rw [if_pos h2] at hE; exact Except.noConfusion hE
      · simp [keywordError, h1, h2] at h
    · rw [if_neg h1] at hE; exact Except.noConfusion hE

/-- Bind on a successful `Except` computation. -/
theorem exceptBind_ok {α β : Type} (a : α) (f : α → Except String β) :
    (Except.ok a >>= f) = f a := rfl

/-- The heading fold on the error-free path, with an explicit accumulator. -/
theorem headingCount_aux (keyword : List Char) (h : keywordError keyword = false) :
    ∀ (texts : List (List Char)) (acc : Nat),
      texts.foldlM (fun count el => do
        let occ ← findKeywordOccurrences el keyword
        pure (count + occ.length)) acc = Except.ok (acc + headingCountPure texts keyword)
  | [], acc => by simp [headingCountPure, Pure.pure, Except.pure]
  | t :: ts, acc => by
    have hstep : ((do
        let occ ← findKeywordOccurrences t keyword
        pure (acc + occ.length)) : Except String Nat) =
        Except.ok (acc + (findOccList t keyword).length) := by
      simp only [findOcc_ok t keyword h]
      rfl
    rw [List.foldlM_cons, hstep, exceptBind_ok]
    rw [headingCount_aux keyword h ts (acc + (findOccList t keyword).length)]
    simp [headingCountPure]
    omega

/-- The per-level heading reduce on the error-free path. -/
theorem headingCount_ok (texts : List (List Char)) (keyword : List Char)
    (h : keywordError keyword = false) :
    headingCount texts keyword = Except.ok (headingCountPure texts keyword) := by
  unfold headingCount
  rw [headingCount_aux keyword h texts 0, Nat.zero_add]

/-- On a non-failing keyword, `analyzeKeyword` returns the pure record. -/
theorem analyzeKeyword_eq_ok (document : Document) (keyword : List Char)
    (h : keywordError keyword = false) :
    analyzeKeyword document keyword = Except.ok (analyzeKeywordPure document keyword) := by
  unfold analyzeKeyword analyzeKeywordPure
  simp only [findOcc_ok _ keyword h, headingCount_ok _ keyword h, exceptBind_ok]
  rfl

/-- On a failing keyword, `analyzeKeyword` propagates the thrown error. -/
theorem analyzeKeyword_eq_err (document : Document) (keyword : List Char)
    (h : keywordError keyword = true) :
    analyzeKeyword document keyword =
      Except.error "Invalid regular expression: nothing to repeat" := by
  unfold analyzeKeyword
  simp only [findOcc_err _ keyword h]
  rfl

/-- Inversion: a successful `analyzeKeyword` run is the pure record. -/
theorem analyzeKeyword_ok_inv {document : Document} {keyword : List Char}
    {a : KeywordAnalysis} (h : analyzeKeyword document keyword = Except.ok a) :
    keywordError keyword = false ∧ a = analyzeKeywordPure document keyword := by
  cases hk : keywordError keyword with
  | false =>
    rw [analyzeKeyword_eq_ok document keyword hk] at h
    exact ⟨rfl, (Except.ok.inj h).symm⟩
  | true =>
    rw [analyzeKeyword_eq_err document keyword hk] at h
    exact absurd h (by simp)

/-! ## Character-level facts about normalisation -/

/-- Unfolding `collapseRunsWith` on a head that does not satisfy `p`. -/
theorem collapseRunsWith_cons_neg {p : Char → Bool} {r c : Char} (hc : ¬ p c = true)
    (cs : List Char) : collapseRunsWith p r (c :: cs) = c :: collapseRunsWith p r cs := by
  cases cs with
  | nil => simp [collapseRunsWith, hc]
  | cons d ds => simp [collapseRunsWith, hc]

/-- A successful association lookup comes from a pair of the table. -/
theorem lowerOf_mem : ∀ {ps : List (Char × Char)} {c d : Char},
    lowerOf ps c = some d → (c, d) ∈ ps
  | [], c, d, h => by simp [lowerOf] at h
  | (u, l) :: rest, c, d, h => by
    by_cases hc : c = u
    · rw [lowerOf, if_pos hc] at h
      injection h with h
      subst hc
      subst h
      exact List.mem_cons_self _ _
    · rw [lowerOf, if_neg hc] at h
      exact List.mem_cons_of_mem _ (lowerOf_mem h)

/-- Lowercasing a character twice is the same as lowercasing it once. -/
theorem jsToLower_idem (c : Char) : jsToLower (jsToLower c) = jsToLower c := by
  unfold jsToLower
  cases hl : lowerOf lowerPairs c with
  | none => simp [hl]
  | some d =>
    simp only [hl, Option.getD_some]
    have hnone : lowerOf lowerPairs d = none := by
      have hall : ∀ pr ∈ lowerPairs, lowerOf lowerPairs pr.2 = none := by decide
      exact hall (c, d) (lowerOf_mem hl)
    simp [hnone]

/-- Trimming only removes characters. -/
theorem mem_trimJS {c : Char} {l : List Char} (h : c ∈ trimJS l) : c ∈ l := by
  unfold trimJS at h
  rw [List.mem_reverse] at h
  have h2 := (List.dropWhile_sublist isWS).subset h
  rw [List.mem_reverse] at h2
  exact (List.dropWhile_sublist isWS).subset h2

/-- Collapsing runs only introduces `r` and keeps characters outside `p`. -/
theorem mem_collapseRunsWith {p : Char → Bool} {r : Char} {c : Char} : ∀ {l : List Char},
    c ∈ collapseRunsWith p r l → c = r ∨ (c ∈ l ∧ p c = false) := by
  intro l
  induction l using collapseRunsWith.induct p r with
  | case1 => intro h; simp [collapseRunsWith] at h
  | case2 c' hc' => intro h; simp [collapseRunsWith, hc'] at h; exact Or.inl h
  | case3 c' hc' c1 cs hc1 ih =>
    intro h
    rw [show collapseRunsWith p r (c' :: c1 :: cs) = collapseRunsWith p r (c1 :: cs) from by
      simp [collapseRunsWith, hc', hc1]] at h
    rcases ih h with h1 | ⟨h2, h3⟩
    · exact Or.inl h1
    · exact Or.inr ⟨List.mem_cons_of_mem _ h2, h3⟩
  | case4 c' hc' c1 cs hc1 ih =>
    intro h
    rw [show collapseRunsWith p r (c' :: c1 :: cs) = r :: collapseRunsWith p r (c1 :: cs) from by
      simp [collapseRunsWith, hc', hc1]] at h
    rcases List.mem_cons.mp h with h1 | h1
    · exact Or.inl h1
    · rcases ih h1 with h2 | ⟨h3, h4⟩
      · exact Or.inl h2
      · exact Or.inr ⟨List.mem_cons_of_mem _ h3, h4⟩
  | case5 c' cs hc' ih =>
    intro h
    rw [collapseRunsWith_cons_neg hc'] at h
    rcases List.mem_cons.mp h with h1 | h1
    · exact Or.inr ⟨h1 ▸ List.mem_cons_self _ _, h1 ▸ Bool.eq_false_iff.mpr hc'⟩
    · rcases ih h1 with h2 | ⟨h3, h4⟩
      · exact Or.inl h2
      · exact Or.inr ⟨List.mem_cons_of_mem _ h3, h4⟩

/-- A run-collapse containing at least one collapsible character contains `r`. -/
theorem mem_collapseRunsWith_of_exists {p : Char → Bool} {r : Char} : ∀ {l : List Char},
    (∃ c ∈ l, p c = true) → r ∈ collapseRunsWith p r l := by
  intro l
  induction l using collapseRunsWith.induct p r with
  | case1 => rintro ⟨c, hc, -⟩; exact absurd hc (List.not_mem_nil c)
  | case2 c' hc' => intro _; simp [collapseRunsWith, hc']
  | case3 c' hc' c1 cs hc1 ih =>
    intro _
    rw [show collapseRunsWith p r (c' :: c1 :: cs) = collapseRunsWith p r (c1 :: cs) from by
      simp [collapseRunsWith, hc', hc1]]
    exact ih ⟨c1, List.mem_cons_self _ _, hc1⟩
  | case4 c' hc' c1 cs hc1 ih =>
    intro _
    rw [show collapseRunsWith p r (c' :: c1 :: cs) = r :: collapseRunsWith p r (c1 :: cs) from by
      simp [collapseRunsWith, hc', hc1]]
    exact List.mem_cons_self _ _
  | case5 c' cs hc' ih =>
    rintro ⟨c, hc, hpc⟩
    rw [collapseRunsWith_cons_neg hc']
    rcases List.mem_cons.mp hc with h1 | h1
    · exact absurd (h1 ▸ hpc) hc'
    · exact List.mem_cons_of_mem _ (ih ⟨c, h1, hpc⟩)

/-- Every character of a normalized text is lowercase-fixed, outside the
punctuation set, and a space if whitespace at all. -/
theorem mem_normalizeText {c : Char} {l : List Char} (h : c ∈ normalizeText l) :
    jsToLower c = c ∧ isPunct c = false ∧ (isWS c = true → c = ' ') := by
  have h1 := mem_trimJS h
  rcases mem_collapseRunsWith h1 with h2 | ⟨h2, h3⟩
  · subst h2
    exact ⟨rfl, rfl, fun _ => rfl⟩
  · rcases List.mem_filter.mp h2 with ⟨h4, h5⟩
    rcases List.mem_map.mp h4 with ⟨c0, -, rfl⟩
    exact ⟨jsToLower_idem c0, by simpa using h5, fun hws => absurd hws (by simp [h3])⟩

/-- Normalisation removes every hyphen (`-` is in the punctuation set). -/
theorem dash_not_mem_normalizeText (l : List Char) : '-' ∉ normalizeText l := by
  intro h
  have := (mem_normalizeText h).2.1
  simp [isPunct, punctChars] at this

/-- An `isPrefixOf` witness as an append decomposition. -/
theorem exists_append_of_isPrefixOf : ∀ {n m : List Char},
    n.isPrefixOf m = true → ∃ t, m = n ++ t
  | [], m, _ => ⟨m, rfl⟩
  | a :: as, [], h => by simp [List.isPrefixOf] at h
  | a :: as, b :: bs, h => by
    rw [List.isPrefixOf, Bool.and_eq_true, beq_iff_eq] at h
    obtain ⟨t, ht⟩ := exists_append_of_isPrefixOf h.2
    exact ⟨t, by rw [List.cons_append, ← h.1, ← ht]⟩

/-- A substring's characters all occur in the containing string. -/
theorem containsSub_mem {needle hay : List Char} (h : containsSub needle hay = true)
    {c : Char} (hc : c ∈ needle) : c ∈ hay := by
  unfold containsSub at h
  rw [List.any_eq_true] at h
  obtain ⟨i, -, hp⟩ := h
  obtain ⟨t, ht⟩ := exists_append_of_isPrefixOf hp
  have : c ∈ hay.drop i := ht ▸ List.mem_append_left _ hc
  exact List.mem_of_mem_drop this

/-! ## Structure of collapsed and trimmed texts -/

/-- Collapsing is the identity on a text whose collapsible characters are all
`r` and never adjacent. -/
theorem collapse_eq_self {p : Char → Bool} {r : Char} : ∀ {l : List Char},
    (∀ c ∈ l, p c = true → c = r) →
    List.Chain' (fun a b => ¬(p a = true ∧ p b = true)) l →
    collapseRunsWith p r l = l := by
  intro l
  induction l using collapseRunsWith.induct p r with
  | case1 => intro _ _; rfl
  | case2 c hc =>
    intro h1 _
    simp [collapseRunsWith, hc, h1 c (List.mem_cons_self _ _) hc]
  | case3 c hc c1 cs hc1 ih =>
    intro h1 h2
    exact absurd ⟨hc, hc1⟩ (List.chain'_cons.mp h2).1
  | case4 c hc c1 cs hc1 ih =>
    intro h1 h2
    rw [show collapseRunsWith p r (c :: c1 :: cs) = r :: collapseRunsWith p r (c1 :: cs) from by
      simp [collapseRunsWith, hc, hc1]]
    rw [ih (fun d hd hpd => h1 d (List.mem_cons_of_mem _ hd) hpd) (List.chain'_cons.mp h2).2]
    rw [h1 c (List.mem_cons_self _ _) hc]
  | case5 c cs hc ih =>
    intro h1 h2
    rw [collapseRunsWith_cons_neg hc]
    rw [ih (fun d hd hpd => h1 d (List.mem_cons_of_mem _ hd) hpd) h2.tail]

/-- No two adjacent collapsible characters survive a run-collapse. -/
theorem chain'_collapse {p : Char → Bool} {r : Char} : ∀ {l : List Char},
    List.Chain' (fun a b => ¬(p a = true ∧ p b = true)) (collapseRunsWith p r l) := by
  intro l
  induction l using collapseRunsWith.induct p r with
  | case1 => exact List.chain'_nil
  | case2 c hc =>
    rw [show collapseRunsWith p r [c] = [r] from by simp [collapseRunsWith, hc]]
    exact List.chain'_singleton r
  | case3 c hc c1 cs hc1 ih =>
    rw [show collapseRunsWith p r (c :: c1 :: cs) = collapseRunsWith p r (c1 :: cs) from by
      simp [collapseRunsWith, hc, hc1]]
    exact ih
  | case4 c hc c1 cs hc1 ih =>
    rw [show collapseRunsWith p r (c :: c1 :: cs) = r :: collapseRunsWith p r (c1 :: cs) from by
      simp [collapseRunsWith, hc, hc1]]
    rw [collapseRunsWith_cons_neg hc1] at ih ⊢
    exact List.chain'_cons.mpr ⟨fun hand => absurd hand.2 hc1, ih⟩
  | case5 c cs hc ih =>
    rw [collapseRunsWith_cons_neg hc]
    exact List.chain'_cons'.mpr ⟨fun y _ hand => absurd hand.1 hc, ih⟩

/-- A list is its reverse's drop-while part followed by its take-while part,
both reversed. -/
theorem dropWhile_rev_decomp (d : List Char) :
    d = (d.reverse.dropWhile isWS).reverse ++ (d.reverse.takeWhile isWS).reverse := by
  conv_lhs => rw [← List.reverse_reverse d,
    ← List.takeWhile_append_dropWhile (p := isWS) (l := d.reverse)]
  rw [List.reverse_append]

/-- A trimmed text extends on the right to the left-trimmed text. -/
theorem trimJS_append_eq (l : List Char) :
    trimJS l ++ ((l.dropWhile isWS).reverse.takeWhile isWS).reverse = l.dropWhile isWS :=
  (dropWhile_rev_decomp (l.dropWhile isWS)).symm

/-- The first character of a trimmed text is not whitespace. -/
theorem trimJS_head (l : List Char) (c : Char) (h : (trimJS l).head? = some c) :
    isWS c = false := by
  have hd : (l.dropWhile isWS).head? = some c := by
    rw [← trimJS_append_eq l, List.head?_append, h]
    rfl
  have hnot := List.head?_dropWhile_not isWS l
  rw [hd] at hnot
  exact hnot

/-- The last character of a trimmed text is not whitespace. -/
theorem trimJS_getLast (l : List Char) (c : Char) (h : (trimJS l).getLast? = some c) :
    isWS c = false := by
  unfold trimJS at h
  rw [List.getLast?_reverse] at h
  have hnot := List.head?_dropWhile_not isWS (l.dropWhile isWS).reverse
  rw [h] at hnot
  exact hnot

/-- Dropping leading whitespace is the identity when the head is not whitespace. -/
theorem dropWhile_eq_self_of_head (l : List Char)
    (hh : ∀ c, l.head? = some c → isWS c = false) : l.dropWhile isWS = l := by
  cases l with
  | nil => rfl
  | cons a as => exact List.dropWhile_cons_of_neg (by simp [hh a rfl])

/-- Trimming is the identity on a text with non-whitespace ends. -/
theorem trim_eq_self (l : List Char)
    (hh : ∀ c, l.head? = some c → isWS c = false)
    (hl : ∀ c, l.getLast? = some c → isWS c = false) : trimJS l = l := by
  unfold trimJS
  rw [dropWhile_eq_self_of_head l hh]
  rw [dropWhile_eq_self_of_head l.reverse (fun c hc => hl c (by rwa [List.head?_reverse] at hc))]
  exact List.reverse_reverse l

/-- Trimming preserves the adjacent-pair invariant. -/
theorem chain'_trim {R : Char → Char → Prop} {l : List Char} (h : List.Chain' R l) :
    List.Chain' R (trimJS l) := by
  have h1 : List.Chain' R (l.dropWhile isWS) := by
    rw [← List.takeWhile_append_dropWhile (p := isWS) (l := l)] at h
    exact (List.chain'_append.mp h).2.1
  rw [← trimJS_append_eq l] at h1
  exact (List.chain'_append.mp h1).1

/-- Normalisation applied to its own output changes nothing. -/
theorem normalizeText_idem (x : List Char) :
    normalizeText (normalizeText x) = normalizeText x := by
  have hmem : ∀ c ∈ normalizeText x,
      jsToLower c = c ∧ isPunct c = false ∧ (isWS c = true → c = ' ') :=
    fun c hc => mem_normalizeText hc
  have hchain : List.Chain' (fun a b => ¬(isWS a = true ∧ isWS b = true)) (normalizeText x) := by
    unfold normalizeText
    exact chain'_trim chain'_collapse
  have hmap : (normalizeText x).map jsToLower = normalizeText x := by
    have h := List.map_congr_left (fun a ha => (hmem a ha).1)
    simpa using h
  have hfil : (normalizeText x).filter (fun c => !(isPunct c)) = normalizeText x :=
    List.filter_eq_self.mpr (fun a ha => by simp [(hmem a ha).2.1])
  have hcol : collapseRunsWith isWS ' ' (normalizeText x) = normalizeText x :=
    collapse_eq_self (fun c hc hw => (hmem c hc).2.2 hw) hchain
  have htrim : trimJS (normalizeText x) = normalizeText x := by
    apply trim_eq_self
    · intro c hc
      exact trimJS_head _ c hc
    · intro c hc
      exact trimJS_getLast _ c hc
  show trimJS (collapseRunsWith isWS ' '
    (((normalizeText x).map jsToLower).filter (fun c => !(isPunct c)))) = normalizeText x
  rw [hmap, hfil, hcol, htrim]

/-! ## Facts about keyword token sets -/

/-- A character split always produces at least one piece. -/
theorem splitOnChar_ne_nil (sep : Char) (l : List Char) : splitOnChar sep l ≠ [] := by
  cases l with
  | nil => simp [splitOnChar]
  | cons c cs =>
    unfold splitOnChar
    cases h : splitOnChar sep cs with
    | nil => simp
    | cons t ts => by_cases hc : c = sep <;> simp [hc]

/-- Every keyword's token set is non-empty (the empty keyword's is `{""}`). -/
theorem wordSet_nonempty (s : List Char) : (wordSet s).Nonempty := by
  cases hj : jsWords s with
  | nil => exact absurd hj (splitOnChar_ne_nil ' ' (s.map jsToLower))
  | cons t ts => exact ⟨t, by simp [wordSet, hj]⟩

/-- The spec example's similarity ratio is exactly one third. -/
theorem sim_solar : calculateSimilarity solarA solarB = 1/3 := by
  unfold calculateSimilarity
  rw [show (wordSet solarA ∩ wordSet solarB).card = 1 from rfl,
      show (wordSet solarA ∪ wordSet solarB).card = 3 from rfl]
  norm_num

/-- The boundary pair's similarity ratio is exactly three tenths. -/
theorem sim_boundary : calculateSimilarity boundaryA boundaryB = 3/10 := by
  unfold calculateSimilarity
  rw [show (wordSet boundaryA ∩ wordSet boundaryB).card = 3 from rfl,
      show (wordSet boundaryA ∪ wordSet boundaryB).card = 10 from rfl]
  norm_num

/-! ## Claim theorems -/

/-- C1.  The claim says `analyzeContent` detects non-finite readability scores
and suppresses or replaces the display lines.  The code has no such check: for
a document whose single paragraph is empty, the joined full text is empty,
word and sentence counts are both zero, every readability score is non-finite,
and the report still carries all four score lines, each holding a non-finite
value (printed as `NaN` by the CLI). -/
theorem C1_empty_paragraph_prints_nonfinite :
    (calculateMetrics []).totalWords = 0 ∧ (calculateMetrics []).totalSentences = 0 ∧
    analyzeContent emptyParagraphDoc =
      ContentReport.report [none, none, none, none] (calculateMetrics []) ∧
    printsNonFinite (analyzeContent emptyParagraphDoc) = true :=
  ⟨by decide, by decide, rfl, by decide⟩

/-- C2 counterexample.  The claim describes the syllable algorithm with a
plain vowel-or-y guard class and one syllable per maximal vowel run; the code
excludes `l` from the guard class, removes a bare `ed`, and counts greedy
one-or-two-vowel matches.  On "queue" (one maximal run of four vowels) the
code reports 2 where the claim's algorithm reports 1, and on "tables" (whose
`les` ending the code keeps because of the `l` exclusion) the code reports 2
where the claim's algorithm reports 1. -/
theorem C2_counterexample :
    countWordSyllables ("queue".toList) = 2 ∧ specCountWordSyllables ("queue".toList) = 1 ∧
    countWordSyllables ("tables".toList) = 2 ∧ specCountWordSyllables ("tables".toList) = 1 := by
  decide

/-- C2 amended.  `countWordSyllables` strips non-letters and lowercases,
returns 1 for words of length at most three, otherwise removes a trailing
`Xes` (X outside `[laeiouy]`), bare `ed`, or `Xe` suffix, strips a leading
`y`, and returns the number of greedy one-or-two vowel-or-y matches with a
floor of one; the result is at least 1 for every input, and the spec's
examples hold: "cat" has 1 estimated syllable and "banana" has 3. -/
theorem C2_amended_syllable_floor :
    (∀ w : List Char, countWordSyllables w =
      (if (stripNonAlpha w).length ≤ 3 then 1
       else max 1 (countVowelPairs (dropLeadY (dropSuffixEsEdE (stripNonAlpha w)))))) ∧
    (∀ w : List Char, 1 ≤ countWordSyllables w) ∧
    countWordSyllables ("cat".toList) = 1 ∧ countWordSyllables ("banana".toList) = 3 := by
  refine ⟨fun w => ?_, fun w => ?_, by decide, by decide⟩
  · by_cases hlen : (stripNonAlpha w).length ≤ 3
    · simp [countWordSyllables, hlen]
    · simp only [countWordSyllables, if_neg hlen]
      cases hn : countVowelPairs (dropLeadY (dropSuffixEsEdE (stripNonAlpha w))) with
      | zero => simp
      | succ n => simp
  · simp only [countWordSyllables]
    split
    · exact Nat.le_refl 1
    · split
      · exact Nat.le_refl 1
      · omega

/-- C3 counterexample.  The claim says `calculateSimilarity` returns 0 when
both keywords are empty; JavaScript `"".split(' ')` yields `[""]`, so both
token sets are the singleton containing the empty token and the ratio is 1. -/
theorem C3_counterexample : calculateSimilarity [] [] = 1 := by
  unfold calculateSimilarity
  rw [show (wordSet [] ∩ wordSet []).card = 1 from rfl,
      show (wordSet [] ∪ wordSet []).card = 1 from rfl]
  norm_num

/-- C3 amended.  `calculateSimilarity` is the Jaccard index of the two
lowercase space-split token sets: it is symmetric, 0 on disjoint sets, 1 on
identical sets, and its denominator — the union's size — is always positive,
so the ratio is never `NaN`; on two empty keywords both sets are `{""}` and
the ratio is 1, not 0. -/
theorem C3_amended_similarity (a b : List Char) :
    calculateSimilarity a b = calculateSimilarity b a ∧
    (wordSet a ∩ wordSet b = ∅ → calculateSimilarity a b = 0) ∧
    (wordSet a = wordSet b → calculateSimilarity a b = 1) ∧
    0 < (wordSet a ∪ wordSet b).card := by
  have hpos : 0 < (wordSet a ∪ wordSet b).card :=
    Finset.card_pos.mpr ((wordSet_nonempty a).mono Finset.subset_union_left)
  refine ⟨?_, ?_, ?_, hpos⟩
  · unfold calculateSimilarity
    rw [Finset.inter_comm, Finset.union_comm]
  · intro h
    unfold calculateSimilarity
    rw [h]
    simp
  · intro h
    unfold calculateSimilarity
    rw [h, Finset.inter_self, Finset.union_self]
    have hb : 0 < ((wordSet b).card : ℚ) := by
      exact_mod_cast Finset.card_pos.mpr (wordSet_nonempty b)
    exact div_self (ne_of_gt hb)

/-- C3 witness: the amended statement at concrete keywords — symmetry on
"a b" and "c a", ratio 0 on the disjoint pair "x"/"y", ratio 1 on the
set-identical pair "a b"/"b a". -/
theorem C3_amended_similarity_witness :
    calculateSimilarity ("a b".toList) ("c a".toList) =
      calculateSimilarity ("c a".toList) ("a b".toList) ∧
    calculateSimilarity ("x".toList) ("y".toList) = 0 ∧
    calculateSimilarity ("a b".toList) ("b a".toList) = 1 :=
  ⟨(C3_amended_similarity _ _).1, (C3_amended_similarity _ _).2.1 (by decide),
   (C3_amended_similarity _ _).2.2.1 (by decide)⟩

/-- C4 counterexample.  The claim equates the per-level heading sums with one
occurrence-finder run over the concatenated heading texts.  With headings
"x a" (H1) and "b y" (H2) and the keyword "a b", every per-element count is 0
(sum 0), but the finder applied once to the space-joined concatenation
"x a b y" finds the occurrence spanning the two headings and returns 1. -/
theorem C4_counterexample :
    (analyzeKeywordPure headingSplitDoc ("a b".toList)).h1
      + (analyzeKeywordPure headingSplitDoc ("a b".toList)).h2
      + (analyzeKeywordPure headingSplitDoc ("a b".toList)).h3 = 0 ∧
    specHeadingConcatCount headingSplitDoc ("a b".toList) = Except.ok 1 ∧
    analyzeKeyword headingSplitDoc ("a b".toList) =
      Except.ok (analyzeKeywordPure headingSplitDoc ("a b".toList)) :=
  ⟨by decide, rfl, analyzeKeyword_eq_ok _ _ (by decide)⟩

/-- C4 amended.  For every successful analysis, the per-level heading counts
sum to the total of the occurrence counts taken element by element over all
H1, H2 and H3 heading texts (and each per-element count is the occurrence
finder's count on that text); a single run over the concatenation of the
heading texts can differ when a multi-word keyword spans two headings. -/
theorem C4_amended_heading_sums (document : Document) (keyword : List Char)
    (a : KeywordAnalysis) (h : analyzeKeyword document keyword = Except.ok a) :
    (a.h1 + a.h2 + a.h3 =
      ((document.h1s ++ document.h2s ++ document.h3s).map
        (fun t => (findOccList t keyword).length)).sum) ∧
    ∀ t, countKeywordInText t keyword = Except.ok (findOccList t keyword).length := by
  obtain ⟨hk, rfl⟩ := analyzeKeyword_ok_inv h
  constructor
  · show headingCountPure document.h1s keyword + headingCountPure document.h2s keyword
      + headingCountPure document.h3s keyword = _
    simp [headingCountPure, List.map_append, List.sum_append, Nat.add_assoc]
  · intro t
    unfold countKeywordInText
    rw [findOcc_ok t keyword hk]
    rfl

/-- C4 witness: the amended sum at the concrete split-heading document. -/
theorem C4_amended_heading_sums_witness :
    (analyzeKeywordPure headingSplitDoc ("a b".toList)).h1
      + (analyzeKeywordPure headingSplitDoc ("a b".toList)).h2
      + (analyzeKeywordPure headingSplitDoc ("a b".toList)).h3 =
    ((headingSplitDoc.h1s ++ headingSplitDoc.h2s ++ headingSplitDoc.h3s).map
        (fun t => (findOccList t ("a b".toList)).length)).sum :=
  (C4_amended_heading_sums headingSplitDoc ("a b".toList) _
    (analyzeKeyword_eq_ok _ _ (by decide))).1

/-- C5.  For every successful analysis, the reported density equals the raw
occurrence count times the whitespace-split keyword token count, divided by
the whitespace-split normalized-body-text token count, times 100; the count
field is the occurrence list's length; and the density is never negative. -/
theorem C5_density_formula (document : Document) (keyword : List Char)
    (a : KeywordAnalysis) (h : analyzeKeyword document keyword = Except.ok a) :
    a.density = ((a.count * (splitWS keyword).length : Nat) : ℚ)
        / (((splitWS (normalizeText document.bodyText)).length : Nat) : ℚ) * 100
      ∧ a.count = a.occurrences.length ∧ 0 ≤ a.density := by
  obtain ⟨-, rfl⟩ := analyzeKeyword_ok_inv h
  refine ⟨rfl, rfl, ?_⟩
  show (0 : ℚ) ≤
    ((((findOccList document.bodyText keyword).length * (splitWS keyword).length : Nat) : ℚ)
      / (((splitWS (normalizeText document.bodyText)).length : Nat) : ℚ) * 100)
  positivity

/-- C5 witness: the density formula at the sample document and the keyword
"solar" (two occurrences in a four-word body, density 50). -/
theorem C5_density_formula_witness :
    (analyzeKeywordPure sampleDoc ("solar".toList)).density =
      (((analyzeKeywordPure sampleDoc ("solar".toList)).count
          * (splitWS ("solar".toList)).length : Nat) : ℚ)
        / (((splitWS (normalizeText sampleDoc.bodyText)).length : Nat) : ℚ) * 100 ∧
    (analyzeKeywordPure sampleDoc ("solar".toList)).count =
      (analyzeKeywordPure sampleDoc ("solar".toList)).occurrences.length ∧
    0 ≤ (analyzeKeywordPure sampleDoc ("solar".toList)).density :=
  C5_density_formula sampleDoc ("solar".toList) _ (analyzeKeyword_eq_ok _ _ (by decide))

/-- C6.  A pair enters the relationship report exactly when its similarity
ratio strictly exceeds 3/10; the spec example "solar energy" / "solar power"
has ratio 1/3 and is flagged; a pair whose ratio is exactly 3/10 is not
flagged (the threshold is exclusive). -/
theorem C6_competing_threshold :
    (∀ (keywords : List (List Char)) (a b : List Char) (s : ℚ),
      (a, b, s) ∈ analyzeKeywordRelationships keywords ↔
        ((a, b) ∈ allPairs keywords ∧ s = calculateSimilarity a b ∧
          (3 : ℚ)/10 < calculateSimilarity a b)) ∧
    calculateSimilarity solarA solarB = 1/3 ∧
    (solarA, solarB, (1 : ℚ)/3) ∈ analyzeKeywordRelationships [solarA, solarB] ∧
    calculateSimilarity boundaryA boundaryB = 3/10 ∧
    analyzeKeywordRelationships [boundaryA, boundaryB] = [] := by
  have h03 : (0.3 : ℚ) = 3/10 := by norm_num
  refine ⟨?_, sim_solar, ?_, sim_boundary, ?_⟩
  · intro keywords a b s
    unfold analyzeKeywordRelationships
    rw [List.mem_filterMap]
    constructor
    · rintro ⟨⟨x, y⟩, hmem, hf⟩
      dsimp only at hf
      split at hf
      · rename_i hgt
        rw [Option.some.injEq, Prod.mk.injEq, Prod.mk.injEq] at hf
        obtain ⟨rfl, rfl, rfl⟩ := hf
        exact ⟨hmem, rfl, h03 ▸ hgt⟩
      · exact absurd hf (by simp)
    · rintro ⟨hmem, rfl, hgt⟩
      refine ⟨(a, b), hmem, ?_⟩
      dsimp only
      rw [if_pos]
      rw [gt_iff_lt, h03]
      exact hgt
  · rw [show analyzeKeywordRelationships [solarA, solarB] = [(solarA, solarB, (1:ℚ)/3)] from ?_]
    · exact List.mem_cons_self _ _
    · unfold analyzeKeywordRelationships
      rw [show allPairs [solarA, solarB] = [(solarA, solarB)] from by simp [allPairs]]
      rw [List.filterMap_cons, List.filterMap_nil]
      dsimp only
      rw [sim_solar, if_pos (by norm_num : ((1:ℚ)/3) > 0.3)]
  · unfold analyzeKeywordRelationships
    rw [show allPairs [boundaryA, boundaryB] = [(boundaryA, boundaryB)] from by simp [allPairs]]
    rw [List.filterMap_cons, List.filterMap_nil]
    dsimp only
    rw [sim_boundary, if_neg (by norm_num : ¬(((3:ℚ)/10) > 0.3))]

/-- C6 witness: by the threshold characterisation, the boundary pair with
ratio exactly 3/10 is absent from its own relationship report. -/
theorem C6_competing_threshold_witness :
    (boundaryA, boundaryB, (3 : ℚ)/10) ∉ analyzeKeywordRelationships [boundaryA, boundaryB] := by
  intro hmem
  have h := (C6_competing_threshold.1 [boundaryA, boundaryB] boundaryA boundaryB (3/10)).mp hmem
  rw [sim_boundary] at h
  exact absurd h.2.2 (lt_irrefl _)

/-- C7.  `normalizeText` is idempotent and maps the empty text to itself; as a
plain function of character lists it is total by construction. -/
theorem C7_normalize_idempotent :
    (∀ x : List Char, normalizeText (normalizeText x) = normalizeText x) ∧
    normalizeText ([] : List Char) = [] :=
  ⟨normalizeText_idem, rfl⟩

/-- C8.  A keyword input that is empty after trimming makes
`analyzeKeywordUsage` signal the no-keywords error and analyze nothing;
otherwise the analyzed keyword list is exactly the comma-split, trimmed,
empties-discarded input, in input order. -/
theorem C8_keyword_input_handling (document : Document) (keywordsInput : List Char) :
    (trimJS keywordsInput = [] →
      analyzeKeywordUsage document keywordsInput = UsageResult.noKeywords) ∧
    (trimJS keywordsInput ≠ [] →
      analyzedKeywords (analyzeKeywordUsage document keywordsInput) =
        ((splitOnChar ',' keywordsInput).map trimJS).filter (fun k => k ≠ [])) := by
  constructor
  · intro h
    simp [analyzeKeywordUsage, h]
  · intro h
    simp [analyzeKeywordUsage, h, analyzedKeywords, parseKeywords]

/-- C8 witness: the empty input signals no keywords, and the input
" a, b ,," parses to exactly the keywords "a" and "b" in order. -/
theorem C8_keyword_input_handling_witness :
    analyzeKeywordUsage sampleDoc [] = UsageResult.noKeywords ∧
    analyzedKeywords (analyzeKeywordUsage sampleDoc (" a, b ,,".toList)) =
      ["a".toList, "b".toList] :=
  ⟨(C8_keyword_input_handling sampleDoc []).1 rfl, by
    rw [(C8_keyword_input_handling sampleDoc (" a, b ,,".toList)).2 (by decide)]
    decide⟩

/-- C9.  For a keyword whose normalized form contains a space, the URL check
can never succeed: the keyword's spaces become hyphens while normalisation
removes every hyphen from the URL path, so the hyphenated keyword is not a
substring of the normalized URL and `inUrl` is false. -/
theorem C9_multiword_keyword_not_in_url (document : Document) (keyword : List Char)
    (a : KeywordAnalysis) (hsp : ' ' ∈ normalizeText keyword)
    (h : analyzeKeyword document keyword = Except.ok a) : a.inUrl = false := by
  obtain ⟨-, rfl⟩ := analyzeKeyword_ok_inv h
  show containsSub (collapseRunsWith isWS '-' (normalizeText keyword))
      (normalizeText document.urlPath) = false
  by_contra hcs
  rw [Bool.not_eq_false] at hcs
  have hdash : '-' ∈ collapseRunsWith isWS '-' (normalizeText keyword) :=
    mem_collapseRunsWith_of_exists ⟨' ', hsp, by decide⟩
  exact dash_not_mem_normalizeText _ (containsSub_mem hcs hdash)

/-- C9 witness: "solar power" is reported absent even from the sample
document's URL path "/solar-power". -/
theorem C9_multiword_keyword_not_in_url_witness :
    (analyzeKeywordPure sampleDoc ("solar power".toList)).inUrl = false :=
  C9_multiword_keyword_not_in_url sampleDoc ("solar power".toList)
    (analyzeKeywordPure sampleDoc ("solar power".toList))
    (by decide) (analyzeKeyword_eq_ok _ _ (by decide))

/-- C10.  `findKeywordOccurrences` is not total: the keyword "c++" survives
normalisation unchanged (its `+` is not in the removed punctuation set), is a
single token, and the word-boundary pattern built from it has a quantifier
with nothing to repeat, so the `RegExp` construction throws instead of
returning an occurrence list. -/
theorem C10_regex_metachar_throws :
    findKeywordOccurrences ("the c++ language".toList) ("c++".toList) =
      Except.error "Invalid regular expression: nothing to repeat" ∧
    normalizeText ("c++".toList) = "c++".toList ∧
    (splitOnChar ' ' (normalizeText ("c++".toList))).length = 1 :=
  ⟨rfl, by decide, by decide⟩

end SeoAudit
